import Mathlib

/-!
Verification of `static_kallsyms.py` against its natural-language specification.

The Python program is shallowly embedded: the kernel image is a `List Nat` of
byte values, offsets are `Int` (Python integers can go negative, e.g. the `-1`
returned by `str.find` on failure), and every fallible operation (a read that
raises `struct.error` or `IndexError` in Python) returns an `Option`.  Python 2
floor division `/` is `Int.fdiv`, `%` on `Int` is Euclidean `emod` exactly as in
Python, and slicing/indexing follow CPython's clamping and wrap-around rules.
-/

/-- Clamp of a Python slice endpoint: negative indices count from the end and
are clamped at 0, positive ones are clamped at the length. -/
def pySliceStart (len : Nat) (i : Int) : Nat :=
  if i < 0 then ((len : Int) + i).toNat else min i.toNat len

/-- Python slice `data[i : j]` on a byte string. -/
def pySlice (data : List Nat) (i j : Int) : List Nat :=
  ((data.drop (pySliceStart data.length i)).take
    (pySliceStart data.length j - pySliceStart data.length i))

/-- Python single indexing `data[i]`: a negative index wraps once from the end;
an index out of range raises `IndexError`, modelled as `none`. -/
def pyIndex (data : List Nat) (i : Int) : Option Nat :=
  if i < 0 then
    if (data.length : Int) + i < 0 then none
    else data.get? ((data.length : Int) + i).toNat
  else data.get? i.toNat

/-- Does `sub` occur in `data` starting exactly at position `p`?  For a
non-empty `sub` this also forces `p + sub.length ≤ data.length`, as in CPython. -/
def matchesAt (data sub : List Nat) (p : Nat) : Bool :=
  (data.drop p).take sub.length == sub

/-- Scan positions `p, p+1, ...` (at every byte, `fuel` many candidates) for the
first occurrence of `sub`; `-1` when there is none.  This is the loop inside
CPython's `str.find`. -/
def strFindFrom (data sub : List Nat) : Nat → Nat → Int
  | _, 0 => -1
  | p, fuel + 1 => if matchesAt data sub p then (p : Int) else strFindFrom data sub (p + 1) fuel

/-- Python `data.find(sub, start)`: first occurrence of `sub` at or after the
clamped `start`, scanning at every byte offset; `-1` if absent. -/
def strFind (data sub : List Nat) (start : Int) : Int :=
  strFindFrom data sub (pySliceStart data.length start)
    (data.length + 1 - pySliceStart data.length start)

/-- Python `struct.pack("<I", v)`: the four little-endian bytes of a 32-bit
value (the program only ever packs values below 2^32). -/
def packDword (v : Nat) : List Nat :=
  [v % 256, v / 256 % 256, v / 65536 % 256, v / 16777216 % 256]

/-- Source constant: the default address at which the kernel text segment is
loaded (`DEFAULT_KERNEL_TEXT_START = 0xC0008000`). -/
def DEFAULT_KERNEL_TEXT_START : Nat := 0xC0008000

/-- Source constant: `DWORD_SIZE = struct.calcsize("I") = 4`. -/
def DWORD_SIZE : Int := 4

/-- Source constant: `WORD_SIZE = struct.calcsize("H") = 2`. -/
def WORD_SIZE : Int := 2

/-- Source constant: `LABEL_ALIGN = DWORD_SIZE * 4`, the 16-byte alignment of
labels in the kernel image. -/
def LABEL_ALIGN : Int := DWORD_SIZE * 4

/-- Source constant: the minimal number of repeated text-start addresses used
as the table-discovery heuristic. -/
def KALLSYMS_ADDRESSES_MIN_HEURISTIC : Nat := 2

/-- Source `read_dword`: `struct.unpack("<I", kernel_data[offset : offset + DWORD_SIZE])`.
`struct.error` (slice shorter than 4 bytes) is `none`. -/
def read_dword (kernel_data : List Nat) (offset : Int) : Option Nat :=
  match pySlice kernel_data offset (offset + DWORD_SIZE) with
  | [b0, b1, b2, b3] => some (b0 + 256 * b1 + 65536 * b2 + 16777216 * b3)
  | _ => none

/-- Source `read_word`: `struct.unpack("<H", kernel_data[offset : offset + WORD_SIZE])`. -/
def read_word (kernel_data : List Nat) (offset : Int) : Option Nat :=
  match pySlice kernel_data offset (offset + WORD_SIZE) with
  | [b0, b1] => some (b0 + 256 * b1)
  | _ => none

/-- Source `read_byte`: `struct.unpack("<B", kernel_data[offset : offset + 1])`. -/
def read_byte (kernel_data : List Nat) (offset : Int) : Option Nat :=
  match pySlice kernel_data offset (offset + 1) with
  | [b0] => some b0
  | _ => none

/-- Loop body of source `read_c_string`: accumulate bytes until a NUL byte;
running off the end of the image raises `IndexError` (`none`).  The fuel only
bounds the loop; `2 * length + 1` steps always suffice to reach either a NUL
or the end of the data, exactly as the Python loop terminates. -/
def read_c_string_go (kernel_data : List Nat) : Nat → Int → Option (List Nat)
  | 0, _ => none
  | fuel + 1, current_offset =>
    match pyIndex kernel_data current_offset with
    | none => none
    | some 0 => some []
    | some b => (read_c_string_go kernel_data fuel (current_offset + 1)).map (fun s => b :: s)

/-- Source `read_c_string`: reads a NUL-delimited C string from the given offset. -/
def read_c_string (kernel_data : List Nat) (offset : Int) : Option (List Nat) :=
  read_c_string_go kernel_data (2 * kernel_data.length + 1) offset

/-- Source `label_align`: `address & ~(LABEL_ALIGN - 1)`.  On Python's
arbitrary-precision integers the mask `~15 = -16` clears the low four bits,
which is exactly subtraction of `address % 16` (Euclidean remainder); the
theorem `label_align_eq_land` below proves this equal to the literal bitwise
form `Int.land address (Int.lnot (LABEL_ALIGN - 1))`. -/
def label_align (address : Int) : Int :=
  address - address % LABEL_ALIGN

/-- Source `find_kallsyms_addresses`: search for the text-start address packed
and repeated `KALLSYMS_ADDRESSES_MIN_HEURISTIC` times; `-1` when absent. -/
def find_kallsyms_addresses (kernel_data : List Nat) (kernel_text_start : Nat) : Int :=
  strFind kernel_data
    (List.flatten (List.replicate KALLSYMS_ADDRESSES_MIN_HEURISTIC (packDword kernel_text_start)))
    0

/-- Source line 71: `kallsyms_addresses_off`, the offset of the address table. -/
def kallsyms_addresses_off (kernel_data : List Nat) (kernel_text_start : Nat) : Int :=
  find_kallsyms_addresses kernel_data kernel_text_start

/-- Source line 72: `kallsyms_addresses_end_off = kernel_data.find(pack("<I", 0), kallsyms_addresses_off)`. -/
def kallsyms_addresses_end_off (kernel_data : List Nat) (kernel_text_start : Nat) : Int :=
  strFind kernel_data (packDword 0) (kallsyms_addresses_off kernel_data kernel_text_start)

/-- Source line 73: `num_symbols = (kallsyms_addresses_end_off - kallsyms_addresses_off) / DWORD_SIZE`
(Python 2 floor division). -/
def num_symbols (kernel_data : List Nat) (kernel_text_start : Nat) : Int :=
  Int.fdiv
    (kallsyms_addresses_end_off kernel_data kernel_text_start -
      kallsyms_addresses_off kernel_data kernel_text_start)
    DWORD_SIZE

/-- Source line 76: `kallsyms_num_syms_off = label_align(kallsyms_addresses_end_off + LABEL_ALIGN)`. -/
def kallsyms_num_syms_off (kernel_data : List Nat) (kernel_text_start : Nat) : Int :=
  label_align (kallsyms_addresses_end_off kernel_data kernel_text_start + LABEL_ALIGN)

/-- Source line 83: `kallsyms_names_off = label_align(kallsyms_num_syms_off + LABEL_ALIGN)`. -/
def kallsyms_names_off (kernel_data : List Nat) (kernel_text_start : Nat) : Int :=
  label_align (kallsyms_num_syms_off kernel_data kernel_text_start + LABEL_ALIGN)

/-- Source lines 84-86: the measuring walk over the names blob.  It advances
`read_byte(current) + 1` bytes per record, once per symbol, and yields the
final cursor; a failing read (`struct.error`) is `none`. -/
def names_walk (kernel_data : List Nat) : Nat → Int → Option Int
  | 0, current_offset => some current_offset
  | n + 1, current_offset =>
    match read_byte kernel_data current_offset with
    | none => none
    | some b => names_walk kernel_data n (current_offset + b + 1)

/-- Source line 87 applied to a walk result: `kallsyms_markers_off = label_align(current_offset + LABEL_ALIGN)`. -/
def kallsyms_markers_off_of (names_end : Int) : Int :=
  label_align (names_end + LABEL_ALIGN)

/-- Source line 90: `kallsyms_token_table_off = label_align(kallsyms_markers_off + (((num_symbols + 255) >> 8) * DWORD_SIZE))`;
Python's arithmetic right shift `>> 8` is floor division by 256. -/
def kallsyms_token_table_off_of (num_syms : Int) (names_end : Int) : Int :=
  label_align (kallsyms_markers_off_of names_end + Int.fdiv (num_syms + 255) 256 * DWORD_SIZE)

/-- Source lines 91-94: the measuring walk over the 256 NUL-terminated token
strings, advancing `len(token_str) + 1` per string. -/
def token_walk (kernel_data : List Nat) : Nat → Int → Option Int
  | 0, current_offset => some current_offset
  | n + 1, current_offset =>
    match read_c_string kernel_data current_offset with
    | none => none
    | some token_str => token_walk kernel_data n (current_offset + token_str.length + 1)

/-- Source line 95 applied to a walk result: `kallsyms_token_index_off = label_align(current_offset + LABEL_ALIGN)`. -/
def kallsyms_token_index_off_of (tokens_end : Int) : Int :=
  label_align (tokens_end + LABEL_ALIGN)

/-- Source lines 98-101: build the 256-entry token table; entry `i` is the
NUL-terminated string at `kallsyms_token_table_off + read_word(token_index_off + i * WORD_SIZE)`. -/
def build_token_table (kernel_data : List Nat) (token_table_off token_index_off : Int) :
    Option (List (List Nat)) :=
  (List.range 256).mapM (fun i =>
    match read_word kernel_data (token_index_off + (i : Int) * WORD_SIZE) with
    | none => none
    | some index => read_c_string kernel_data (token_table_off + (index : Int)))

/-- Source lines 110-113: the inner decoding loop of one record.  It reads the
given number of token-index bytes in order, looks each up in the token table,
and concatenates the tokens in encounter order, returning the decoded name and
the cursor after the record. -/
def decode_name (kernel_data : List Nat) (token_table : List (List Nat)) :
    Nat → Int → Option (List Nat × Int)
  | 0, offset => some ([], offset)
  | j + 1, offset =>
    match read_byte kernel_data offset with
    | none => none
    | some token_table_idx =>
      match token_table.get? token_table_idx with
      | none => none
      | some token =>
        match decode_name kernel_data token_table j (offset + 1) with
        | none => none
        | some (rest, offset2) => some (token ++ rest, offset2)

/-- Source lines 104-117: the decompression loop.  For each symbol `i` it reads
the length byte, decodes the name, reads the address at
`addresses_off + i * DWORD_SIZE`, and splits the name into its first character
(the kind) and the remainder; `symbol_name[0]` on an empty decoded name raises
`IndexError` (`none`).  The final cursor is also returned. -/
def decompress (kernel_data : List Nat) (token_table : List (List Nat)) (addresses_off : Int) :
    Nat → Nat → Int → Option (List (Nat × Nat × List Nat) × Int)
  | 0, _, offset => some ([], offset)
  | n + 1, i, offset =>
    match read_byte kernel_data offset with
    | none => none
    | some num_tokens =>
      match decode_name kernel_data token_table num_tokens (offset + 1) with
      | none => none
      | some (symbol_name, offset2) =>
        match read_dword kernel_data (addresses_off + (i : Int) * DWORD_SIZE) with
        | none => none
        | some symbol_address =>
          match symbol_name with
          | [] => none
          | kind :: rest =>
            match decompress kernel_data token_table addresses_off n (i + 1) offset2 with
            | none => none
            | some (symbol_table, final_offset) =>
              some ((symbol_address, kind, rest) :: symbol_table, final_offset)

/-- Outcome of `get_kernel_symbol_table`.  `crash` is an unhandled Python
exception (`struct.error` / `IndexError` on an out-of-bounds read, or indexing
an empty decoded name); `mismatch measured declared` is the source's
line 79-80 path, which prints "Actual symbol table size: measured, read symbol
table size: declared" and returns `None`; `ok` is the returned symbol table. -/
inductive ExtractResult where
  | crash : ExtractResult
  | mismatch : Int → Nat → ExtractResult
  | ok : List (Nat × Nat × List Nat) → ExtractResult
deriving DecidableEq

/-- Source `get_kernel_symbol_table`, assembled from the stage functions above
exactly in source order: locate the table, measure it, read and check the
declared count, walk the names, locate and read the token tables, then
decompress. -/
def get_kernel_symbol_table (kernel_data : List Nat) (kernel_text_start : Nat) : ExtractResult :=
  match read_dword kernel_data (kallsyms_num_syms_off kernel_data kernel_text_start) with
  | none => ExtractResult.crash
  | some kallsyms_num_syms =>
    if (kallsyms_num_syms : Int) ≠ num_symbols kernel_data kernel_text_start then
      ExtractResult.mismatch (num_symbols kernel_data kernel_text_start) kallsyms_num_syms
    else
      match names_walk kernel_data (num_symbols kernel_data kernel_text_start).toNat
          (kallsyms_names_off kernel_data kernel_text_start) with
      | none => ExtractResult.crash
      | some names_end =>
        match token_walk kernel_data 256
            (kallsyms_token_table_off_of (num_symbols kernel_data kernel_text_start) names_end) with
        | none => ExtractResult.crash
        | some tokens_end =>
          match build_token_table kernel_data
              (kallsyms_token_table_off_of (num_symbols kernel_data kernel_text_start) names_end)
              (kallsyms_token_index_off_of tokens_end) with
          | none => ExtractResult.crash
          | some token_table =>
            match decompress kernel_data token_table
                (kallsyms_addresses_off kernel_data kernel_text_start)
                (num_symbols kernel_data kernel_text_start).toNat 0
                (kallsyms_names_off kernel_data kernel_text_start) with
            | none => ExtractResult.crash
            | some (symbol_table, _) => ExtractResult.ok symbol_table

/-- ASCII code of the uppercase hexadecimal digit for `n < 16` (as produced by
Python's `%X`). -/
def hexDigit (n : Nat) : Nat :=
  if n < 10 then 48 + n else 55 + n

/-- Numeric value of an ASCII hexadecimal digit (inverse of `hexDigit`). -/
def hexCharValue (c : Nat) : Nat :=
  if c < 58 then c - 48 else c - 55

/-- Python `"%08X" % v` for `v < 2^32`: the eight uppercase hexadecimal digits
of `v`, zero padded, most significant first. -/
def format_hex8 (v : Nat) : List Nat :=
  ((List.range 8).reverse).map (fun k => hexDigit (v / 16 ^ k % 16))

/-- Source line 132: `print "%08X %s %s" % symbol` — one output line as its
list of ASCII codes (32 is the space separator). -/
def format_symbol_line (s : Nat × Nat × List Nat) : List Nat :=
  format_hex8 s.1 ++ [32] ++ [s.2.1] ++ [32] ++ s.2.2

/-- Symbol lines printed by `main`'s loop (source lines 130-132): one formatted
line per symbol on success.  On `mismatch` the function returned `None`, so the
loop raises `TypeError` after the diagnostic line — zero symbol lines; on
`crash` the exception propagates — zero symbol lines. -/
def symbolOutputLines : ExtractResult → List (List Nat)
  | ExtractResult.ok symbol_table => symbol_table.map format_symbol_line
  | _ => []

/-- Specification-side projection of the decompressor: the list of full decoded
names, one per record, obtained with the same length-byte reads and the same
`decode_name` as the source's decoding pass. -/
def decode_names_list (kernel_data : List Nat) (token_table : List (List Nat)) :
    Nat → Int → Option (List (List Nat))
  | 0, _ => some []
  | n + 1, offset =>
    match read_byte kernel_data offset with
    | none => none
    | some num_tokens =>
      match decode_name kernel_data token_table num_tokens (offset + 1) with
      | none => none
      | some (symbol_name, offset2) =>
        match decode_names_list kernel_data token_table n offset2 with
        | none => none
        | some rest => some (symbol_name :: rest)

/-- Specification-side helper: the record's token-index bytes, read in order
with the source's `read_byte`. -/
def read_bytes (kernel_data : List Nat) : Nat → Int → Option (List Nat)
  | 0, _ => some []
  | j + 1, offset =>
    match read_byte kernel_data offset with
    | none => none
    | some b => (read_bytes kernel_data j (offset + 1)).map (fun s => b :: s)

/-- Token-string blob of the synthetic image: "T", "_", "foo", then 253 empty
strings — 256 NUL-terminated strings in all. -/
def synthTokenBlob : List Nat :=
  [84, 0, 95, 0, 102, 111, 111, 0] ++ List.replicate 253 0

/-- Token-index words of the synthetic image: entry 0 points at "T" (offset 0),
entry 5 at "_" (offset 2), entry 12 at "foo" (offset 4), and every other entry
at a NUL byte (offset 1), each as a little-endian 16-bit word. -/
def synthTokenIndexWords : List Nat :=
  [0, 0] ++ List.flatten (List.replicate 4 [1, 0]) ++ [2, 0] ++
    List.flatten (List.replicate 6 [1, 0]) ++ [4, 0] ++ List.flatten (List.replicate 243 [1, 0])

/-- Everything of the synthetic image after the declared-count field: padding
to the names blob at offset 32, two name records `[2,0,5]` ("T"+"_") and
`[2,0,12]` ("T"+"foo"), padding, the token strings at offset 48 (where the
code's alignment arithmetic places both the skipped markers table and the
token-table start), padding, and the token-index words at offset 320. -/
def synthTailRest : List Nat :=
  List.replicate 12 170 ++ [2, 0, 5, 2, 0, 12] ++ List.replicate 10 170 ++
    synthTokenBlob ++ List.replicate 11 170 ++ synthTokenIndexWords

/-- Well-formed synthetic kernel image: the anchor address twice at offset 0,
the zero terminator at offset 8, padding, the declared count 2 at offset 16,
then `synthTailRest`. -/
def synthImage : List Nat :=
  packDword DEFAULT_KERNEL_TEXT_START ++ packDword DEFAULT_KERNEL_TEXT_START ++
    packDword 0 ++ List.replicate 4 170 ++ [2, 0, 0, 0] ++ synthTailRest

/-- The token table the synthetic image encodes: entry 0 = "T", entry 5 = "_",
entry 12 = "foo", all other entries empty. -/
def synthTokens : List (List Nat) :=
  [[84]] ++ List.replicate 4 [] ++ [[95]] ++ List.replicate 6 [] ++
    [[102, 111, 111]] ++ List.replicate 243 []

/-- The symbol table extracted from `synthImage`: both symbols at the anchor
address, kinds and names from splitting the decoded "T_" and "Tfoo". -/
def synthTable : List (Nat × Nat × List Nat) :=
  [(3221258240, 84, [95]), (3221258240, 84, [102, 111, 111])]

/-- The synthetic image with its declared count field altered to 3, so that the
declared and measured symbol counts disagree. -/
def mismatchImage : List Nat :=
  packDword DEFAULT_KERNEL_TEXT_START ++ packDword DEFAULT_KERNEL_TEXT_START ++
    packDword 0 ++ List.replicate 4 170 ++ [3, 0, 0, 0] ++ synthTailRest

/-- An image whose address table is followed by the dwords `0x00000100` and
`0x00FF0000`: the first run of four zero bytes starts at offset 10, which is
not a multiple of 4 away from the table start at offset 0. -/
def c5Image : List Nat :=
  packDword DEFAULT_KERNEL_TEXT_START ++ packDword DEFAULT_KERNEL_TEXT_START ++
    [0, 1, 0, 0, 0, 0, 255, 0]

/-- The byte-span counterexample image completed into a fully well-formed image:
the zero run is found at offset 10, the span 10 is floored to 2 symbols, and
the rest of the image is laid out exactly like `synthImage`. -/
def c6Image : List Nat :=
  packDword DEFAULT_KERNEL_TEXT_START ++ packDword DEFAULT_KERNEL_TEXT_START ++
    [0, 1, 0, 0, 0, 0, 255, 0] ++ [2, 0, 0, 0] ++ synthTailRest

/-- An image made of zero bytes only: the anchor pattern does not occur
anywhere in it. -/
def zeroImage : List Nat :=
  List.replicate 816 0

/-- The synthetic image truncated to 18 bytes: the table and its terminator are
intact but the 4-byte declared-count read at offset 16 runs off the end. -/
def truncatedImage : List Nat :=
  synthImage.take 18

/-- Names-blob data for the token decoding example: one record, length byte 3,
token indices 5, 12, 0. -/
def c4Data : List Nat :=
  [3, 5, 12, 0]

/-- Token table for the decoding example: entry 5 is "_", entry 12 is "foo",
entry 0 is "T", all other entries empty. -/
def c4TokenTable : List (List Nat) :=
  [[84]] ++ List.replicate 4 [] ++ [[95]] ++ List.replicate 6 [] ++
    [[102, 111, 111]] ++ List.replicate 243 []

set_option maxRecDepth 400000

set_option maxHeartbeats 4000000

/-- Bits of the mask constant: `Nat.testBit 15 j` is set exactly for `j < 4`. -/
theorem testBit_fifteen (j : Nat) : Nat.testBit 15 j = decide (j < 4) := by
  rw [show (15 : Nat) = 2 ^ 4 - 1 from rfl, Nat.testBit_two_pow_sub_one]

/-- Clearing the low four bits of a natural number subtracts its remainder mod 16. -/
theorem ldiff_fifteen (m : Nat) : Nat.ldiff m 15 = m - m % 16 := by
  have hsub : m - m % 16 = 2 ^ 4 * (m / 16) + 0 := by omega
  rw [hsub]
  apply Nat.eq_of_testBit_eq
  intro j
  rw [Nat.testBit_ldiff, Nat.testBit_mul_pow_two_add _ (by norm_num), testBit_fifteen]
  by_cases hj : j < 4
  · simp [hj]
  · have hdiv : m / 16 = m >>> 4 := by
      rw [Nat.shiftRight_eq_div_pow]
    simp only [hj, if_false, hdiv, Nat.testBit_shiftRight, decide_eq_false hj]
    have h4 : 4 + (j - 4) = j := by omega
    rw [h4]
    simp

/-- Setting the low four bits of a natural number. -/
theorem lor_fifteen (m : Nat) : m ||| 15 = (m - m % 16) + 15 := by
  have hsub : m - m % 16 + 15 = 2 ^ 4 * (m / 16) + 15 := by omega
  rw [hsub]
  apply Nat.eq_of_testBit_eq
  intro j
  rw [Nat.testBit_lor, Nat.testBit_mul_pow_two_add _ (by norm_num), testBit_fifteen]
  by_cases hj : j < 4
  · simp [hj, testBit_fifteen]
  · have hdiv : m / 16 = m >>> 4 := by
      rw [Nat.shiftRight_eq_div_pow]
    simp only [hj, if_false, hdiv, Nat.testBit_shiftRight, decide_eq_false hj]
    have h4 : 4 + (j - 4) = j := by omega
    rw [h4]
    simp

/-- Fidelity of the embedding of `label_align`: the arithmetic definition used
here coincides with the source's literal bit manipulation
`address & ~(LABEL_ALIGN - 1)` on Python's arbitrary-precision integers. -/
theorem label_align_eq_land (a : Int) :
    label_align a = Int.land a (Int.lnot (LABEL_ALIGN - 1)) := by
  rw [show Int.lnot (LABEL_ALIGN - 1) = Int.negSucc 15 from rfl]
  rw [show label_align a = a - a % 16 from by unfold label_align LABEL_ALIGN DWORD_SIZE; norm_num]
  cases a with
  | ofNat m =>
    show _ = (Int.land (Int.ofNat m) (Int.negSucc 15))
    rw [Int.land, ldiff_fifteen]
    simp only [Int.ofNat_eq_natCast]
    omega
  | negSucc m =>
    show _ = (Int.land (Int.negSucc m) (Int.negSucc 15))
    rw [Int.land, lor_fifteen]
    simp only [Int.negSucc_eq]
    push_cast
    omega

/-- C8: the Name-Table Walker starts at
`names_offset = align_down(num_syms_field_end + alignment_quantum)` with
`num_syms_field_end = kallsyms_num_syms_off + 4`: since the count-field offset
is itself produced by `label_align` and hence 16-aligned, aligning down after
adding `4 + 16` gives exactly the offset the code computes (which omits the
`+4`), and that offset is the one both name passes start from. -/
theorem claim_C8 (data : List Nat) (anchor : Nat) :
    kallsyms_names_off data anchor =
      label_align (kallsyms_num_syms_off data anchor + DWORD_SIZE + LABEL_ALIGN) ∧
    (16 : Int) ∣ kallsyms_num_syms_off data anchor := by
  unfold kallsyms_names_off kallsyms_num_syms_off label_align LABEL_ALIGN DWORD_SIZE
  constructor
  · omega
  · omega

/-- C9: for every non-negative integer, `label_align` returns the greatest
multiple of 16 that is at most its argument; consequently it is 16-aligned,
never exceeds its argument, and is idempotent. -/
theorem claim_C9 (a : Int) (h : 0 ≤ a) :
    (16 : Int) ∣ label_align a ∧ label_align a ≤ a ∧
    (∀ m : Int, (16 : Int) ∣ m → m ≤ a → m ≤ label_align a) ∧
    label_align (label_align a) = label_align a := by
  unfold label_align LABEL_ALIGN DWORD_SIZE
  refine ⟨by omega, by omega, ?_, by omega⟩
  intro m hm hle
  omega

/-- Witness for C9 at the concrete input 37: `label_align 37 = 32`. -/
theorem claim_C9_witness :
    (0 : Int) ≤ 37 ∧
    ((16 : Int) ∣ label_align 37 ∧ label_align 37 ≤ 37 ∧
      (∀ m : Int, (16 : Int) ∣ m → m ≤ 37 → m ≤ label_align 37) ∧
      label_align (label_align 37) = label_align 37) :=
  ⟨by decide, claim_C9 37 (by decide)⟩

/-- Characterization of the byte-granular scan: when `strFindFrom` returns a
non-negative position, that position is at or after the scan start, the pattern
matches there, and the pattern matches at no earlier candidate position. -/
theorem strFindFrom_spec (data sub : List Nat) :
    ∀ (fuel p q : Nat), strFindFrom data sub p fuel = (q : Int) →
      p ≤ q ∧ matchesAt data sub q = true ∧
        ∀ r, p ≤ r → r < q → matchesAt data sub r = false := by
  intro fuel
  induction fuel with
  | zero =>
    intro p q h
    simp only [strFindFrom] at h
    omega
  | succ fuel ih =>
    intro p q h
    simp only [strFindFrom] at h
    by_cases hm : matchesAt data sub p
    · rw [if_pos hm] at h
      have hpq : p = q := by omega
      subst hpq
      exact ⟨Nat.le_refl p, hm, fun r h1 h2 => absurd (Nat.lt_of_le_of_lt h1 h2) (Nat.lt_irrefl p)⟩
    · rw [if_neg hm] at h
      obtain ⟨h1, h2, h3⟩ := ih (p + 1) q h
      refine ⟨by omega, h2, ?_⟩
      intro r hr1 hr2
      rcases Nat.eq_or_lt_of_le hr1 with hr | hr
      · subst hr
        exact Bool.eq_false_iff.mpr hm
      · exact h3 r hr hr2

/-- Characterization of `strFind` at a found position. -/
theorem strFind_spec (data sub : List Nat) (start : Int) (q : Nat)
    (h : strFind data sub start = (q : Int)) :
    pySliceStart data.length start ≤ q ∧ matchesAt data sub q = true ∧
      ∀ r, pySliceStart data.length start ≤ r → r < q → matchesAt data sub r = false := by
  unfold strFind at h
  exact strFindFrom_spec data sub _ _ q h

/-- Assembly of `get_kernel_symbol_table` from proven stage results: when every
stage's value is known and the declared count matches the measured one, the
extraction returns the decompressed table. -/
theorem get_eq_of_stages (data : List Nat) (anchor : Nat) (declared : Nat)
    (names_end tokens_end : Int) (token_table : List (List Nat))
    (tbl : List (Nat × Nat × List Nat)) (fin : Int)
    (h1 : read_dword data (kallsyms_num_syms_off data anchor) = some declared)
    (h2 : (declared : Int) = num_symbols data anchor)
    (h3 : names_walk data (num_symbols data anchor).toNat (kallsyms_names_off data anchor) =
      some names_end)
    (h4 : token_walk data 256 (kallsyms_token_table_off_of (num_symbols data anchor) names_end) =
      some tokens_end)
    (h5 : build_token_table data (kallsyms_token_table_off_of (num_symbols data anchor) names_end)
      (kallsyms_token_index_off_of tokens_end) = some token_table)
    (h6 : decompress data token_table (kallsyms_addresses_off data anchor)
      (num_symbols data anchor).toNat 0 (kallsyms_names_off data anchor) = some (tbl, fin)) :
    get_kernel_symbol_table data anchor = ExtractResult.ok tbl := by
  unfold get_kernel_symbol_table
  simp only [h1]
  rw [if_neg (not_ne_iff.mpr h2)]
  simp only [h3, h4, h5, h6]

/-- Stage-by-stage evaluation of the extraction on the synthetic well-formed
image: every stage succeeds and the result is `synthTable`. -/
theorem synthImage_extract :
    get_kernel_symbol_table synthImage DEFAULT_KERNEL_TEXT_START = ExtractResult.ok synthTable := by
  have haoff : kallsyms_addresses_off synthImage DEFAULT_KERNEL_TEXT_START = 0 := by decide
  have hend : kallsyms_addresses_end_off synthImage DEFAULT_KERNEL_TEXT_START = 8 := by
    unfold kallsyms_addresses_end_off
    rw [haoff]
    decide
  have hnum : num_symbols synthImage DEFAULT_KERNEL_TEXT_START = 2 := by
    unfold num_symbols
    rw [hend, haoff]
    decide
  have hnso : kallsyms_num_syms_off synthImage DEFAULT_KERNEL_TEXT_START = 16 := by
    unfold kallsyms_num_syms_off
    rw [hend]
    decide
  have hno : kallsyms_names_off synthImage DEFAULT_KERNEL_TEXT_START = 32 := by
    unfold kallsyms_names_off
    rw [hnso]
    decide
  apply get_eq_of_stages synthImage DEFAULT_KERNEL_TEXT_START 2 38 309 synthTokens synthTable 38
  · rw [hnso]
    decide
  · rw [hnum]
    decide
  · rw [hnum, hno]
    decide
  · rw [hnum]
    show token_walk synthImage 256 (kallsyms_token_table_off_of 2 38) = some 309
    rw [show kallsyms_token_table_off_of 2 38 = 48 from by decide]
    decide
  · rw [hnum]
    rw [show kallsyms_token_table_off_of 2 38 = 48 from by decide,
      show kallsyms_token_index_off_of 309 = 320 from by decide]
    decide
  · rw [haoff, hnum, hno]
    decide

/-- On an all-zero buffer, a pattern containing a nonzero byte is never found. -/
theorem strFindFrom_allzero (data sub : List Nat) (b : Nat)
    (h0 : ∀ x ∈ data, x = 0) (hb : b ∈ sub) (hbnz : b ≠ 0) :
    ∀ (fuel p : Nat), strFindFrom data sub p fuel = -1 := by
  intro fuel
  induction fuel with
  | zero => intro p; rfl
  | succ fuel ih =>
    intro p
    have hm : matchesAt data sub p = false := by
      apply Bool.eq_false_iff.mpr
      intro htrue
      have heq : (data.drop p).take sub.length = sub := eq_of_beq htrue
      have hbmem : b ∈ (data.drop p).take sub.length := by
        rw [heq]
        exact hb
      exact hbnz (h0 b (List.mem_of_mem_drop (List.mem_of_mem_take hbmem)))
    simp only [strFindFrom, hm, Bool.false_eq_true, if_false]
    exact ih (p + 1)

/-- The anchor pattern (which contains the nonzero byte 128) does not occur in
the all-zero image, so the Locator returns the not-found sentinel -1. -/
theorem zeroImage_find_eq :
    find_kallsyms_addresses zeroImage DEFAULT_KERNEL_TEXT_START = -1 := by
  unfold find_kallsyms_addresses strFind
  apply strFindFrom_allzero _ _ 128
  · intro x hx
    exact List.eq_of_mem_replicate hx
  · decide
  · decide

/-- Stage-by-stage evaluation of the extraction on the all-zero image: the
unchecked -1 table offset leads to a zero measured count read back at offset 0,
and the pipeline returns an empty symbol table as a success. -/
theorem zeroImage_extract :
    get_kernel_symbol_table zeroImage DEFAULT_KERNEL_TEXT_START = ExtractResult.ok [] := by
  have haoff : kallsyms_addresses_off zeroImage DEFAULT_KERNEL_TEXT_START = -1 := by
    unfold kallsyms_addresses_off
    exact zeroImage_find_eq
  have hend : kallsyms_addresses_end_off zeroImage DEFAULT_KERNEL_TEXT_START = -1 := by
    unfold kallsyms_addresses_end_off
    rw [haoff]
    decide
  have hnum : num_symbols zeroImage DEFAULT_KERNEL_TEXT_START = 0 := by
    unfold num_symbols
    rw [hend, haoff]
    decide
  have hnso : kallsyms_num_syms_off zeroImage DEFAULT_KERNEL_TEXT_START = 0 := by
    unfold kallsyms_num_syms_off
    rw [hend]
    decide
  have hno : kallsyms_names_off zeroImage DEFAULT_KERNEL_TEXT_START = 16 := by
    unfold kallsyms_names_off
    rw [hnso]
    decide
  apply get_eq_of_stages zeroImage DEFAULT_KERNEL_TEXT_START 0 16 288 (List.replicate 256 []) [] 16
  · rw [hnso]
    decide
  · rw [hnum]
    decide
  · rw [hnum, hno]
    decide
  · rw [hnum]
    rw [show kallsyms_token_table_off_of 0 16 = 32 from by decide]
    decide
  · rw [hnum]
    rw [show kallsyms_token_table_off_of 0 16 = 32 from by decide,
      show kallsyms_token_index_off_of 288 = 304 from by decide]
    decide
  · rw [haoff, hnum, hno]
    decide

/-- Stage-by-stage evaluation of the extraction on `c6Image`: the zero run at
offset 10 gives a floored count of 2 and a successful extraction. -/
theorem c6Image_extract :
    get_kernel_symbol_table c6Image DEFAULT_KERNEL_TEXT_START = ExtractResult.ok synthTable := by
  have haoff : kallsyms_addresses_off c6Image DEFAULT_KERNEL_TEXT_START = 0 := by decide
  have hend : kallsyms_addresses_end_off c6Image DEFAULT_KERNEL_TEXT_START = 10 := by
    unfold kallsyms_addresses_end_off
    rw [haoff]
    decide
  have hnum : num_symbols c6Image DEFAULT_KERNEL_TEXT_START = 2 := by
    unfold num_symbols
    rw [hend, haoff]
    decide
  have hnso : kallsyms_num_syms_off c6Image DEFAULT_KERNEL_TEXT_START = 16 := by
    unfold kallsyms_num_syms_off
    rw [hend]
    decide
  have hno : kallsyms_names_off c6Image DEFAULT_KERNEL_TEXT_START = 32 := by
    unfold kallsyms_names_off
    rw [hnso]
    decide
  apply get_eq_of_stages c6Image DEFAULT_KERNEL_TEXT_START 2 38 309 synthTokens synthTable 38
  · rw [hnso]
    decide
  · rw [hnum]
    decide
  · rw [hnum, hno]
    decide
  · rw [hnum]
    rw [show kallsyms_token_table_off_of 2 38 = 48 from by decide]
    decide
  · rw [hnum]
    rw [show kallsyms_token_table_off_of 2 38 = 48 from by decide,
      show kallsyms_token_index_off_of 309 = 320 from by decide]
    decide
  · rw [haoff, hnum, hno]
    decide

/-- Counterexample to C5 as stated: on `c5Image` the address table is found at
offset 0 and the zero-dword scan stops at offset 10, a distance that is not a
multiple of 4 — the scan moves at every byte offset, not in 4-byte steps. -/
theorem claim_C5_counterexample :
    kallsyms_addresses_off c5Image DEFAULT_KERNEL_TEXT_START = 0 ∧
    kallsyms_addresses_end_off c5Image DEFAULT_KERNEL_TEXT_START = 10 ∧
    ¬ ((4 : Int) ∣ (kallsyms_addresses_end_off c5Image DEFAULT_KERNEL_TEXT_START -
        kallsyms_addresses_off c5Image DEFAULT_KERNEL_TEXT_START)) := by
  refine ⟨by decide, by decide, ?_⟩
  intro hdvd
  rw [show kallsyms_addresses_end_off c5Image DEFAULT_KERNEL_TEXT_START = 10 from by decide,
    show kallsyms_addresses_off c5Image DEFAULT_KERNEL_TEXT_START = 0 from by decide] at hdvd
  omega

/-- C5 (amended): the Table-Bounds Resolver determines `addresses_end_offset`
as the first occurrence of four consecutive zero bytes at or after
`addresses_offset`, scanning at every byte offset (so the resulting span need
not be a multiple of 4). -/
theorem claim_C5_amended (data : List Nat) (anchor : Nat) (p : Nat)
    (h : kallsyms_addresses_end_off data anchor = (p : Int)) :
    (data.drop p).take 4 = [0, 0, 0, 0] ∧
    pySliceStart data.length (kallsyms_addresses_off data anchor) ≤ p ∧
    ∀ q, pySliceStart data.length (kallsyms_addresses_off data anchor) ≤ q → q < p →
      (data.drop q).take 4 ≠ [0, 0, 0, 0] := by
  unfold kallsyms_addresses_end_off at h
  obtain ⟨h1, h2, h3⟩ := strFind_spec data (packDword 0) _ p h
  have hlen : (packDword 0).length = 4 := rfl
  have hsub : packDword 0 = [0, 0, 0, 0] := rfl
  unfold matchesAt at h2 h3
  rw [hlen, hsub] at h2 h3
  refine ⟨by simpa using h2, h1, ?_⟩
  intro q hq1 hq2 heq
  have := h3 q hq1 hq2
  rw [heq] at this
  simp at this

/-- Witness for the amended C5 on `c5Image`: the scan result 10 carries four
zero bytes, lies after the clamped start 0, and no earlier offset does. -/
theorem claim_C5_amended_witness :
    kallsyms_addresses_end_off c5Image DEFAULT_KERNEL_TEXT_START = ((10 : Nat) : Int) ∧
    ((c5Image.drop 10).take 4 = [0, 0, 0, 0] ∧
      pySliceStart c5Image.length (kallsyms_addresses_off c5Image DEFAULT_KERNEL_TEXT_START) ≤ 10 ∧
      ∀ q, pySliceStart c5Image.length (kallsyms_addresses_off c5Image DEFAULT_KERNEL_TEXT_START) ≤ q →
        q < 10 → (c5Image.drop q).take 4 ≠ [0, 0, 0, 0]) :=
  ⟨by decide, claim_C5_amended c5Image DEFAULT_KERNEL_TEXT_START 10 (by decide)⟩

/-- Characterization of the inner decoding loop: decoding `L` token-index bytes
from `off` succeeds exactly on the bytes `read_bytes` collects, the decoded
name is the concatenation (in encounter order) of the token-table entries they
select, and the cursor lands at `off + L`. -/
theorem decode_name_spec (data : List Nat) (tt : List (List Nat)) :
    ∀ (L : Nat) (off : Int) (nm : List Nat) (off2 : Int),
      decode_name data tt L off = some (nm, off2) →
      off2 = off + (L : Int) ∧
        ∃ idxs toks, read_bytes data L off = some idxs ∧
          idxs.mapM (fun b => tt.get? b) = some toks ∧ nm = toks.flatten := by
  intro L
  induction L with
  | zero =>
    intro off nm off2 h
    simp only [decode_name] at h
    obtain ⟨h1, h2⟩ := Prod.mk.injEq .. ▸ Option.some.injEq .. ▸ h
    refine ⟨by omega, [], [], rfl, rfl, ?_⟩
    simp [← h1]
  | succ j ih =>
    intro off nm off2 h
    simp only [decode_name] at h
    cases hrb : read_byte data off with
    | none => rw [hrb] at h; simp at h
    | some idx =>
      simp only [hrb] at h
      cases hidx : tt.get? idx with
      | none => rw [hidx] at h; simp at h
      | some token =>
        simp only [hidx] at h
        cases hrec : decode_name data tt j (off + 1) with
        | none => rw [hrec] at h; simp at h
        | some pr =>
          simp only [hrec] at h
          obtain ⟨rest, offr⟩ := pr
          simp only [Option.some.injEq, Prod.mk.injEq] at h
          obtain ⟨hnm, hoff⟩ := h
          obtain ⟨ho, idxs, toks, hbytes, hmap, hflat⟩ := ih (off + 1) rest offr hrec
          refine ⟨by omega, idx :: idxs, token :: toks, ?_, ?_, ?_⟩
          · simp [read_bytes, hrb, hbytes]
          · rw [List.mapM_cons, hidx, hmap]
            rfl
          · simp [← hnm, hflat]

/-- Counterexample to the worked example in C4: with token 5 = "_", token 12 =
"foo", token 0 = "T", the record with length byte 3 and index bytes 5, 12, 0
decodes in encounter order to "_fooT" (bytes 95,102,111,111,84), not to
"T_foo" (bytes 84,95,102,111,111); the kind is therefore the underscore, not T. -/
theorem claim_C4_counterexample :
    read_byte c4Data 0 = some 3 ∧
    c4TokenTable.get? 5 = some [95] ∧
    c4TokenTable.get? 12 = some [102, 111, 111] ∧
    c4TokenTable.get? 0 = some [84] ∧
    decode_name c4Data c4TokenTable 3 1 = some ([95, 102, 111, 111, 84], 4) ∧
    ([95, 102, 111, 111, 84] : List Nat) ≠ 84 :: [95, 102, 111, 111] := by
  refine ⟨by decide, by decide, by decide, by decide, by decide, by decide⟩

/-- C4 (amended): for every symbol record, the decoded name is the
concatenation of the token-table strings selected by the record's L
token-index bytes, taken in the order the index bytes were encountered, and
the cursor advances by exactly L+1 bytes per record; e.g. indices [5,12,0]
with token 5 = "_", token 12 = "foo", token 0 = "T" decode to "_fooT",
yielding kind the underscore character and name "fooT". -/
theorem claim_C4_amended (data : List Nat) (tt : List (List Nat)) (off : Int) (L : Nat)
    (nm : List Nat) (off2 : Int)
    (hlen : read_byte data off = some L)
    (hdec : decode_name data tt L (off + 1) = some (nm, off2)) :
    off2 = off + (L : Int) + 1 ∧
      ∃ idxs toks, read_bytes data L (off + 1) = some idxs ∧
        idxs.mapM (fun b => tt.get? b) = some toks ∧ nm = toks.flatten := by
  obtain ⟨ho, idxs, toks, h1, h2, h3⟩ := decode_name_spec data tt L (off + 1) nm off2 hdec
  exact ⟨by omega, idxs, toks, h1, h2, h3⟩

/-- Witness for the amended C4 at the example record: length byte 3, indices
5, 12, 0 decode to "_fooT" with the cursor advancing from 0 to 4 = 3 + 1. -/
theorem claim_C4_amended_witness :
    read_byte c4Data 0 = some 3 ∧
    decode_name c4Data c4TokenTable 3 (0 + 1) = some ([95, 102, 111, 111, 84], 4) ∧
    ((4 : Int) = 0 + (3 : Nat) + 1 ∧
      ∃ idxs toks, read_bytes c4Data 3 (0 + 1) = some idxs ∧
        idxs.mapM (fun b => c4TokenTable.get? b) = some toks ∧
        ([95, 102, 111, 111, 84] : List Nat) = toks.flatten) :=
  ⟨by decide, by decide,
    claim_C4_amended c4Data c4TokenTable 0 3 [95, 102, 111, 111, 84] 4 (by decide) (by decide)⟩

/-- One decompression record and one measuring-walk record advance the cursor
identically: unfolding a successful `decompress` step yields the same length
byte the walk reads and a continuation cursor `off + L + 1`. -/
theorem decompress_step (data : List Nat) (tt : List (List Nat)) (aoff : Int)
    (n i : Nat) (off : Int) (tbl : List (Nat × Nat × List Nat)) (fin : Int)
    (h : decompress data tt aoff (n + 1) i off = some (tbl, fin)) :
    ∃ L tbl2, read_byte data off = some L ∧
      decompress data tt aoff n (i + 1) (off + (L : Int) + 1) = some (tbl2, fin) := by
  simp only [decompress] at h
  cases hrb : read_byte data off with
  | none => rw [hrb] at h; simp at h
  | some L =>
    simp only [hrb] at h
    cases hdec : decode_name data tt L (off + 1) with
    | none => rw [hdec] at h; simp at h
    | some pr =>
      simp only [hdec] at h
      obtain ⟨nm, off2⟩ := pr
      cases haddr : read_dword data (aoff + (i : Int) * DWORD_SIZE) with
      | none => rw [haddr] at h; simp at h
      | some addr =>
        simp only [haddr] at h
        cases nm with
        | nil => simp at h
        | cons kind rest =>
          simp only [] at h
          cases hrec : decompress data tt aoff n (i + 1) off2 with
          | none => rw [hrec] at h; simp at h
          | some pr2 =>
            simp only [hrec] at h
            obtain ⟨tbl2, fin2⟩ := pr2
            simp only [Option.some.injEq, Prod.mk.injEq] at h
            refine ⟨L, tbl2, rfl, ?_⟩
            have hoff2 : off2 = off + (L : Int) + 1 := by
              have hds := (decode_name_spec data tt L (off + 1) (kind :: rest) off2 hdec).1
              omega
            rw [← hoff2, hrec, h.2]

/-- The measuring walk (source lines 84-86) follows a successful decompression
exactly: it succeeds on the same record count from the same start and ends at
the decompression's final cursor. -/
theorem decompress_names_walk (data : List Nat) (tt : List (List Nat)) (aoff : Int) :
    ∀ (n i : Nat) (off : Int) (tbl : List (Nat × Nat × List Nat)) (fin : Int),
      decompress data tt aoff n i off = some (tbl, fin) →
      names_walk data n off = some fin := by
  intro n
  induction n with
  | zero =>
    intro i off tbl fin h
    simp only [decompress, Option.some.injEq, Prod.mk.injEq] at h
    simp only [names_walk, Option.some.injEq]
    exact h.2
  | succ n ih =>
    intro i off tbl fin h
    obtain ⟨L, tbl2, hrb, hrec⟩ := decompress_step data tt aoff n i off tbl fin h
    simp only [names_walk, hrb]
    exact ih (i + 1) (off + (L : Int) + 1) tbl2 fin hrec

/-- After any number of records `k`, the measuring walk sits exactly where the
decoding pass reads its `k`-th length byte: the remaining decompression resumes
from the walk's cursor. -/
theorem decompress_walk_prefix (data : List Nat) (tt : List (List Nat)) (aoff : Int) :
    ∀ (k n i : Nat) (off : Int) (tbl : List (Nat × Nat × List Nat)) (fin : Int),
      decompress data tt aoff n i off = some (tbl, fin) → k ≤ n →
      ∃ ofk tbl2, names_walk data k off = some ofk ∧
        decompress data tt aoff (n - k) (i + k) ofk = some (tbl2, fin) := by
  intro k
  induction k with
  | zero =>
    intro n i off tbl fin h _
    exact ⟨off, tbl, rfl, by simpa using h⟩
  | succ k ih =>
    intro n i off tbl fin h hk
    cases n with
    | zero => omega
    | succ n =>
      obtain ⟨L, tbl2, hrb, hrec⟩ := decompress_step data tt aoff n i off tbl fin h
      obtain ⟨ofk, tbl3, hwalk, hdec⟩ :=
        ih n (i + 1) (off + (L : Int) + 1) tbl2 fin hrec (by omega)
      refine ⟨ofk, tbl3, ?_, ?_⟩
      · simp only [names_walk, hrb]
        exact hwalk
      · have h1 : n + 1 - (k + 1) = n - k := by omega
        have h2 : i + (k + 1) = i + 1 + k := by omega
        rw [h1, h2]
        exact hdec

/-- C10: the measuring walk over the names blob and the decoding pass traverse
identical offsets — starting from the same offset, whenever the decoding pass
succeeds the walk succeeds too, both passes end at the same final cursor, and
after every k ≤ n records the walk's cursor is exactly the offset at which the
decoding pass reads its next length byte. -/
theorem claim_C10 (data : List Nat) (tt : List (List Nat)) (aoff : Int) (n i : Nat)
    (off fin : Int) (tbl : List (Nat × Nat × List Nat))
    (h : decompress data tt aoff n i off = some (tbl, fin)) :
    names_walk data n off = some fin ∧
    ∀ k, k ≤ n → ∃ ofk tbl2, names_walk data k off = some ofk ∧
      decompress data tt aoff (n - k) (i + k) ofk = some (tbl2, fin) := by
  refine ⟨decompress_names_walk data tt aoff n i off tbl fin h, ?_⟩
  intro k hk
  exact decompress_walk_prefix data tt aoff k n i off tbl fin h hk

/-- Witness for C10 on the synthetic image: decompressing its two records from
offset 32 ends at 38, and the measuring walk agrees. -/
theorem claim_C10_witness :
    decompress synthImage synthTokens 0 2 0 32 = some (synthTable, 38) ∧
    (names_walk synthImage 2 32 = some 38 ∧
      ∀ k, k ≤ 2 → ∃ ofk tbl2, names_walk synthImage k 32 = some ofk ∧
        decompress synthImage synthTokens 0 (2 - k) (0 + k) ofk = some (tbl2, 38)) :=
  ⟨by decide, claim_C10 synthImage synthTokens 0 2 0 32 38 synthTable (by decide)⟩

/-- C2: when the 32-bit count read at the aligned `num_syms` offset differs
from the count measured from the address table, the extraction returns the
distinct `mismatch` outcome (the source's diagnostic print of both counts
followed by `return None`), which is neither the crash outcome nor any symbol
table, and zero symbol output lines are produced. -/
theorem claim_C2 (data : List Nat) (anchor : Nat) (declared : Nat)
    (hdecl : read_dword data (kallsyms_num_syms_off data anchor) = some declared)
    (hne : (declared : Int) ≠ num_symbols data anchor) :
    get_kernel_symbol_table data anchor =
      ExtractResult.mismatch (num_symbols data anchor) declared ∧
    get_kernel_symbol_table data anchor ≠ ExtractResult.crash ∧
    (∀ tbl, get_kernel_symbol_table data anchor ≠ ExtractResult.ok tbl) ∧
    symbolOutputLines (get_kernel_symbol_table data anchor) = [] := by
  have hget : get_kernel_symbol_table data anchor =
      ExtractResult.mismatch (num_symbols data anchor) declared := by
    unfold get_kernel_symbol_table
    simp only [hdecl]
    rw [if_pos hne]
  refine ⟨hget, by rw [hget]; simp, fun tbl => by rw [hget]; simp, by rw [hget]; rfl⟩

/-- Witness for C2 on `mismatchImage` (the synthetic image with its declared
count altered to 3 while the measured count is 2). -/
theorem claim_C2_witness :
    read_dword mismatchImage (kallsyms_num_syms_off mismatchImage DEFAULT_KERNEL_TEXT_START) =
      some 3 ∧
    ((3 : Nat) : Int) ≠ num_symbols mismatchImage DEFAULT_KERNEL_TEXT_START ∧
    get_kernel_symbol_table mismatchImage DEFAULT_KERNEL_TEXT_START =
      ExtractResult.mismatch (num_symbols mismatchImage DEFAULT_KERNEL_TEXT_START) 3 ∧
    symbolOutputLines (get_kernel_symbol_table mismatchImage DEFAULT_KERNEL_TEXT_START) = [] :=
  ⟨by decide, by decide,
    (claim_C2 mismatchImage DEFAULT_KERNEL_TEXT_START 3 (by decide) (by decide)).1,
    (claim_C2 mismatchImage DEFAULT_KERNEL_TEXT_START 3 (by decide) (by decide)).2.2.2⟩

/-- Counterexample to C6 as stated: on `c6Image` the byte span between the
table start (offset 0) and the zero-run found at offset 10 is not a multiple
of 4, yet extraction does not fail — the count is silently floored to 2 and a
full symbol table is returned. -/
theorem claim_C6_counterexample :
    kallsyms_addresses_off c6Image DEFAULT_KERNEL_TEXT_START = 0 ∧
    kallsyms_addresses_end_off c6Image DEFAULT_KERNEL_TEXT_START = 10 ∧
    ¬ ((4 : Int) ∣ (kallsyms_addresses_end_off c6Image DEFAULT_KERNEL_TEXT_START -
        kallsyms_addresses_off c6Image DEFAULT_KERNEL_TEXT_START)) ∧
    num_symbols c6Image DEFAULT_KERNEL_TEXT_START = 2 ∧
    get_kernel_symbol_table c6Image DEFAULT_KERNEL_TEXT_START = ExtractResult.ok synthTable := by
  refine ⟨by decide, by decide, ?_, by decide, c6Image_extract⟩
  intro hdvd
  rw [show kallsyms_addresses_end_off c6Image DEFAULT_KERNEL_TEXT_START = 10 from by decide,
    show kallsyms_addresses_off c6Image DEFAULT_KERNEL_TEXT_START = 0 from by decide] at hdvd
  omega

/-- C6 (amended): the measured symbol count is the floor of the byte span over
4 (Python 2 floor division); a non-multiple span is silently floored, no
malformed-image failure exists, and in particular whenever the declared count
equals the floored measured count the consistency check passes, so the
extraction never returns the mismatch outcome. -/
theorem claim_C6_amended (data : List Nat) (anchor : Nat) (declared : Nat)
    (hdecl : read_dword data (kallsyms_num_syms_off data anchor) = some declared)
    (heq : (declared : Int) = num_symbols data anchor) :
    num_symbols data anchor =
      Int.fdiv (kallsyms_addresses_end_off data anchor - kallsyms_addresses_off data anchor)
        DWORD_SIZE ∧
    ∀ m d, get_kernel_symbol_table data anchor ≠ ExtractResult.mismatch m d := by
  refine ⟨rfl, ?_⟩
  intro m d hcon
  unfold get_kernel_symbol_table at hcon
  simp only [hdecl] at hcon
  rw [if_neg (not_ne_iff.mpr heq)] at hcon
  cases hw : names_walk data (num_symbols data anchor).toNat (kallsyms_names_off data anchor) with
  | none => rw [hw] at hcon; exact ExtractResult.noConfusion hcon
  | some names_end =>
    simp only [hw] at hcon
    cases ht : token_walk data 256
        (kallsyms_token_table_off_of (num_symbols data anchor) names_end) with
    | none => rw [ht] at hcon; exact ExtractResult.noConfusion hcon
    | some tokens_end =>
      simp only [ht] at hcon
      cases hb : build_token_table data
          (kallsyms_token_table_off_of (num_symbols data anchor) names_end)
          (kallsyms_token_index_off_of tokens_end) with
      | none => rw [hb] at hcon; exact ExtractResult.noConfusion hcon
      | some token_table =>
        simp only [hb] at hcon
        cases hd : decompress data token_table (kallsyms_addresses_off data anchor)
            (num_symbols data anchor).toNat 0 (kallsyms_names_off data anchor) with
        | none => rw [hd] at hcon; exact ExtractResult.noConfusion hcon
        | some pr =>
          obtain ⟨symtbl, fin⟩ := pr
          simp only [hd] at hcon
          exact ExtractResult.noConfusion hcon

/-- Witness for the amended C6 on `c6Image`: the declared count 2 equals the
floored measured count of the 10-byte span, and extraction indeed never
returns a mismatch there. -/
theorem claim_C6_amended_witness :
    read_dword c6Image (kallsyms_num_syms_off c6Image DEFAULT_KERNEL_TEXT_START) = some 2 ∧
    ((2 : Nat) : Int) = num_symbols c6Image DEFAULT_KERNEL_TEXT_START ∧
    (num_symbols c6Image DEFAULT_KERNEL_TEXT_START =
      Int.fdiv (kallsyms_addresses_end_off c6Image DEFAULT_KERNEL_TEXT_START -
        kallsyms_addresses_off c6Image DEFAULT_KERNEL_TEXT_START) DWORD_SIZE ∧
      ∀ m d, get_kernel_symbol_table c6Image DEFAULT_KERNEL_TEXT_START ≠
        ExtractResult.mismatch m d) :=
  ⟨by decide, by decide, claim_C6_amended c6Image DEFAULT_KERNEL_TEXT_START 2 (by decide) (by decide)⟩

/-- C7: whenever any read of stages 4.3-4.5 fails — the declared-count dword
read, the names measuring walk, the token-string walk (including an
unterminated string), the token-table build, or the decompression pass — the
extraction ends in the terminal crash outcome (the Python exception) and
produces zero symbol output lines, never fabricated symbol data. -/
theorem claim_C7 (data : List Nat) (anchor : Nat)
    (h : read_dword data (kallsyms_num_syms_off data anchor) = none ∨
      (∃ declared, read_dword data (kallsyms_num_syms_off data anchor) = some declared ∧
        (declared : Int) = num_symbols data anchor ∧
        (names_walk data (num_symbols data anchor).toNat (kallsyms_names_off data anchor) = none ∨
          (∃ names_end,
            names_walk data (num_symbols data anchor).toNat (kallsyms_names_off data anchor) =
              some names_end ∧
            (token_walk data 256
                (kallsyms_token_table_off_of (num_symbols data anchor) names_end) = none ∨
              (∃ tokens_end,
                token_walk data 256
                  (kallsyms_token_table_off_of (num_symbols data anchor) names_end) =
                    some tokens_end ∧
                (build_token_table data
                    (kallsyms_token_table_off_of (num_symbols data anchor) names_end)
                    (kallsyms_token_index_off_of tokens_end) = none ∨
                  (∃ token_table,
                    build_token_table data
                      (kallsyms_token_table_off_of (num_symbols data anchor) names_end)
                      (kallsyms_token_index_off_of tokens_end) = some token_table ∧
                    decompress data token_table (kallsyms_addresses_off data anchor)
                      (num_symbols data anchor).toNat 0
                      (kallsyms_names_off data anchor) = none)))))))) :
    get_kernel_symbol_table data anchor = ExtractResult.crash ∧
    symbolOutputLines (get_kernel_symbol_table data anchor) = [] := by
  have hc : get_kernel_symbol_table data anchor = ExtractResult.crash := by
    unfold get_kernel_symbol_table
    rcases h with h1 | ⟨declared, hdecl, heq, h2⟩
    · simp only [h1]
    · simp only [hdecl]
      rw [if_neg (not_ne_iff.mpr heq)]
      rcases h2 with h3 | ⟨names_end, hwend, h4⟩
      · simp only [h3]
      · simp only [hwend]
        rcases h4 with h5 | ⟨tokens_end, htend, h6⟩
        · simp only [h5]
        · simp only [htend]
          rcases h6 with h7 | ⟨token_table, htt, h8⟩
          · simp only [h7]
          · simp only [htt, h8]
  exact ⟨hc, by rw [hc]; rfl⟩

/-- Witness for C7 on the synthetic image truncated to 18 bytes: the 4-byte
declared-count read at offset 16 runs off the end, and extraction crashes with
zero symbol lines. -/
theorem claim_C7_witness :
    read_dword truncatedImage
      (kallsyms_num_syms_off truncatedImage DEFAULT_KERNEL_TEXT_START) = none ∧
    (get_kernel_symbol_table truncatedImage DEFAULT_KERNEL_TEXT_START = ExtractResult.crash ∧
      symbolOutputLines
        (get_kernel_symbol_table truncatedImage DEFAULT_KERNEL_TEXT_START) = []) :=
  ⟨by decide, claim_C7 truncatedImage DEFAULT_KERNEL_TEXT_START (Or.inl (by decide))⟩

/-- C3 shows a defect in the code: on an image in which the anchor pattern does
not occur at all, `find_kallsyms_addresses` returns the documented not-found
sentinel -1, but `get_kernel_symbol_table` never checks it — on `zeroImage`
the pipeline continues with offset -1 and returns an empty symbol table as a
success instead of surfacing a not-found failure. -/
theorem claim_C3 :
    find_kallsyms_addresses zeroImage DEFAULT_KERNEL_TEXT_START = -1 ∧
    get_kernel_symbol_table zeroImage DEFAULT_KERNEL_TEXT_START = ExtractResult.ok [] :=
  ⟨zeroImage_find_eq, zeroImage_extract⟩

/-- Every byte of a Python slice is a byte of the underlying image. -/
theorem pySlice_mem (data : List Nat) (i j : Int) :
    ∀ x ∈ pySlice data i j, x ∈ data := by
  unfold pySlice
  intro x hx
  exact List.mem_of_mem_drop (List.mem_of_mem_take hx)

/-- A dword read from an image of genuine bytes is below 2^32. -/
theorem read_dword_lt (data : List Nat) (off : Int) (v : Nat)
    (hb : ∀ b ∈ data, b < 256) (h : read_dword data off = some v) :
    v < 4294967296 := by
  unfold read_dword at h
  split at h
  case h_1 b0 b1 b2 b3 heq =>
    have h0 : b0 < 256 := hb b0 (pySlice_mem data off (off + DWORD_SIZE) b0 (heq ▸ by simp))
    have h1 : b1 < 256 := hb b1 (pySlice_mem data off (off + DWORD_SIZE) b1 (heq ▸ by simp))
    have h2 : b2 < 256 := hb b2 (pySlice_mem data off (off + DWORD_SIZE) b2 (heq ▸ by simp))
    have h3 : b3 < 256 := hb b3 (pySlice_mem data off (off + DWORD_SIZE) b3 (heq ▸ by simp))
    simp only [Option.some.injEq] at h
    omega
  case h_2 => simp at h

/-- Full correctness of the decompression loop: on success it returns exactly
`n` records; the names it decodes are those of `decode_names_list` from the
same start offset; and the k-th record carries the dword read at
`addresses_off + (i+k) * DWORD_SIZE` together with the k-th decoded name split
into its head (the kind) and tail (the name). -/
theorem decompress_spec (data : List Nat) (tt : List (List Nat)) (aoff : Int) :
    ∀ (n i : Nat) (off : Int) (tbl : List (Nat × Nat × List Nat)) (fin : Int),
      decompress data tt aoff n i off = some (tbl, fin) →
      tbl.length = n ∧ ∃ nms, decode_names_list data tt n off = some nms ∧
        nms.length = n ∧
        ∀ k, k < n → ∃ addr kind rest nm,
          tbl.get? k = some (addr, kind, rest) ∧
          read_dword data (aoff + ((i + k : Nat) : Int) * DWORD_SIZE) = some addr ∧
          nms.get? k = some nm ∧ nm = kind :: rest := by
  intro n
  induction n with
  | zero =>
    intro i off tbl fin h
    simp only [decompress, Option.some.injEq, Prod.mk.injEq] at h
    refine ⟨by rw [← h.1]; rfl, [], rfl, rfl, ?_⟩
    intro k hk
    omega
  | succ n ih =>
    intro i off tbl fin h
    simp only [decompress] at h
    cases hrb : read_byte data off with
    | none => rw [hrb] at h; simp at h
    | some L =>
      simp only [hrb] at h
      cases hdec : decode_name data tt L (off + 1) with
      | none => rw [hdec] at h; simp at h
      | some pr =>
        simp only [hdec] at h
        obtain ⟨nm, off2⟩ := pr
        cases haddr : read_dword data (aoff + (i : Int) * DWORD_SIZE) with
        | none => rw [haddr] at h; simp at h
        | some addr =>
          simp only [haddr] at h
          cases nm with
          | nil => simp at h
          | cons kind rest =>
            simp only [] at h
            cases hrec : decompress data tt aoff n (i + 1) off2 with
            | none => rw [hrec] at h; simp at h
            | some pr2 =>
              simp only [hrec] at h
              obtain ⟨tbl2, fin2⟩ := pr2
              simp only [Option.some.injEq, Prod.mk.injEq] at h
              obtain ⟨htbl, hfin⟩ := h
              obtain ⟨hlen, nms2, hnms2, hnmslen, hprops⟩ :=
                ih (i + 1) off2 tbl2 fin2 hrec
              refine ⟨?_, (kind :: rest) :: nms2, ?_, ?_, ?_⟩
              · rw [← htbl]
                simp [hlen]
              · simp only [decode_names_list, hrb, hdec, hnms2]
              · simp [hnmslen]
              · intro k hk
                cases k with
                | zero =>
                  refine ⟨addr, kind, rest, kind :: rest, ?_, ?_, rfl, rfl⟩
                  · rw [← htbl]
                    rfl
                  · have hi : i + 0 = i := by omega
                    rw [hi]
                    exact haddr
                | succ k =>
                  obtain ⟨addr2, kind2, rest2, nm2, hg1, hg2, hg3, hg4⟩ :=
                    hprops k (by omega)
                  refine ⟨addr2, kind2, rest2, nm2, ?_, ?_, ?_, hg4⟩
                  · rw [← htbl]
                    simpa using hg1
                  · have hi : i + (k + 1) = i + 1 + k := by omega
                    rw [hi]
                    exact hg2
                  · simpa using hg3

/-- Inversion of a successful extraction: every stage succeeded, the declared
count matched the measured one, and the table is the decompression result. -/
theorem get_ok_inv (data : List Nat) (anchor : Nat) (tbl : List (Nat × Nat × List Nat))
    (h : get_kernel_symbol_table data anchor = ExtractResult.ok tbl) :
    ∃ declared names_end tokens_end token_table fin,
      read_dword data (kallsyms_num_syms_off data anchor) = some declared ∧
      (declared : Int) = num_symbols data anchor ∧
      names_walk data (num_symbols data anchor).toNat (kallsyms_names_off data anchor) =
        some names_end ∧
      token_walk data 256 (kallsyms_token_table_off_of (num_symbols data anchor) names_end) =
        some tokens_end ∧
      build_token_table data (kallsyms_token_table_off_of (num_symbols data anchor) names_end)
        (kallsyms_token_index_off_of tokens_end) = some token_table ∧
      decompress data token_table (kallsyms_addresses_off data anchor)
        (num_symbols data anchor).toNat 0 (kallsyms_names_off data anchor) =
        some (tbl, fin) := by
  unfold get_kernel_symbol_table at h
  cases hdecl : read_dword data (kallsyms_num_syms_off data anchor) with
  | none => rw [hdecl] at h; exact absurd h (by simp)
  | some declared =>
    simp only [hdecl] at h
    by_cases hne : (declared : Int) ≠ num_symbols data anchor
    · rw [if_pos hne] at h
      exact ExtractResult.noConfusion h
    · rw [if_neg hne] at h
      cases hw : names_walk data (num_symbols data anchor).toNat
          (kallsyms_names_off data anchor) with
      | none => rw [hw] at h; exact ExtractResult.noConfusion h
      | some names_end =>
        simp only [hw] at h
        cases ht : token_walk data 256
            (kallsyms_token_table_off_of (num_symbols data anchor) names_end) with
        | none => rw [ht] at h; exact ExtractResult.noConfusion h
        | some tokens_end =>
          simp only [ht] at h
          cases hb : build_token_table data
              (kallsyms_token_table_off_of (num_symbols data anchor) names_end)
              (kallsyms_token_index_off_of tokens_end) with
          | none => rw [hb] at h; exact ExtractResult.noConfusion h
          | some token_table =>
            simp only [hb] at h
            cases hd : decompress data token_table (kallsyms_addresses_off data anchor)
                (num_symbols data anchor).toNat 0 (kallsyms_names_off data anchor) with
            | none => rw [hd] at h; exact ExtractResult.noConfusion h
            | some pr =>
              obtain ⟨symtbl, fin⟩ := pr
              simp only [hd] at h
              have htbl : symtbl = tbl := by
                cases h
                rfl
              subst htbl
              exact ⟨declared, names_end, tokens_end, token_table, fin, rfl,
                not_ne_iff.mp hne, rfl, ht, hb, hd⟩

/-- Round trip of one hexadecimal digit. -/
theorem hexCharValue_hexDigit (d : Nat) (h : d < 16) : hexCharValue (hexDigit d) = d := by
  unfold hexCharValue hexDigit
  split <;> split <;> omega

/-- Round trip of one hexadecimal digit of a remainder. -/
theorem hexCharValue_hexDigit_mod (x : Nat) : hexCharValue (hexDigit (x % 16)) = x % 16 :=
  hexCharValue_hexDigit (x % 16) (Nat.mod_lt x (by decide))

/-- Python's `%08X` always prints eight digits for a 32-bit value. -/
theorem format_hex8_length (v : Nat) : (format_hex8 v).length = 8 := by
  simp [format_hex8]

/-- Every character printed by `%08X` is a decimal digit or an uppercase
letter A-F. -/
theorem format_hex8_chars (v : Nat) :
    ∀ c ∈ format_hex8 v, (48 ≤ c ∧ c ≤ 57) ∨ (65 ≤ c ∧ c ≤ 70) := by
  unfold format_hex8
  intro c hc
  simp only [List.mem_map] at hc
  obtain ⟨k, _, hk⟩ := hc
  subst hk
  unfold hexDigit
  have hlt : v / 16 ^ k % 16 < 16 := Nat.mod_lt _ (by decide)
  split <;> omega

/-- The eight digits printed by `%08X` decode back to the printed value. -/
theorem format_hex8_foldl (v : Nat) (h : v < 4294967296) :
    (format_hex8 v).foldl (fun acc c => 16 * acc + hexCharValue c) 0 = v := by
  have hexp : format_hex8 v =
      [hexDigit (v / 16 ^ 7 % 16), hexDigit (v / 16 ^ 6 % 16), hexDigit (v / 16 ^ 5 % 16),
        hexDigit (v / 16 ^ 4 % 16), hexDigit (v / 16 ^ 3 % 16), hexDigit (v / 16 ^ 2 % 16),
        hexDigit (v / 16 ^ 1 % 16), hexDigit (v / 16 ^ 0 % 16)] := rfl
  rw [hexp]
  simp only [List.foldl, hexCharValue_hexDigit_mod]
  norm_num
  omega

/-- C1: for every image on which extraction succeeds (with genuine byte values),
it produces exactly `declared` Symbol records in address-table order — the k-th
record's address is the 32-bit little-endian dword at
`addresses_offset + k*4`, its kind is the first character of the k-th decoded
name and its name the remaining characters — and the program emits one line
per record consisting of the 8-digit uppercase zero-padded hexadecimal
address, the kind character and the name, separated by single spaces. -/
theorem claim_C1 (data : List Nat) (anchor : Nat) (tbl : List (Nat × Nat × List Nat))
    (declared : Nat)
    (hbytes : ∀ b ∈ data, b < 256)
    (hok : get_kernel_symbol_table data anchor = ExtractResult.ok tbl)
    (hdecl : read_dword data (kallsyms_num_syms_off data anchor) = some declared) :
    tbl.length = declared ∧
    (∃ names_end tokens_end token_table nms,
      names_walk data declared (kallsyms_names_off data anchor) = some names_end ∧
      token_walk data 256 (kallsyms_token_table_off_of (num_symbols data anchor) names_end) =
        some tokens_end ∧
      build_token_table data (kallsyms_token_table_off_of (num_symbols data anchor) names_end)
        (kallsyms_token_index_off_of tokens_end) = some token_table ∧
      decode_names_list data token_table declared (kallsyms_names_off data anchor) = some nms ∧
      nms.length = declared ∧
      ∀ k, k < declared → ∃ addr kind rest nm,
        tbl.get? k = some (addr, kind, rest) ∧
        read_dword data (kallsyms_addresses_off data anchor + (k : Int) * DWORD_SIZE) =
          some addr ∧
        nms.get? k = some nm ∧ nm = kind :: rest) ∧
    symbolOutputLines (ExtractResult.ok tbl) = tbl.map format_symbol_line ∧
    (∀ s ∈ tbl,
      format_symbol_line s = format_hex8 s.1 ++ [32] ++ [s.2.1] ++ [32] ++ s.2.2 ∧
      (format_hex8 s.1).length = 8 ∧
      (∀ c ∈ format_hex8 s.1, (48 ≤ c ∧ c ≤ 57) ∨ (65 ≤ c ∧ c ≤ 70)) ∧
      (format_hex8 s.1).foldl (fun acc c => 16 * acc + hexCharValue c) 0 = s.1) := by
  obtain ⟨declared2, names_end, tokens_end, token_table, fin, hdecl2, heq, hw, ht, hb, hd⟩ :=
    get_ok_inv data anchor tbl hok
  have hdd : declared2 = declared := by
    rw [hdecl2] at hdecl
    exact Option.some.inj hdecl
  subst hdd
  have htn : (num_symbols data anchor).toNat = declared2 := by omega
  rw [htn] at hw hd
  obtain ⟨hlen, nms, hnms, hnmslen, hprops⟩ :=
    decompress_spec data token_table (kallsyms_addresses_off data anchor) declared2 0
      (kallsyms_names_off data anchor) tbl fin hd
  refine ⟨hlen, ⟨names_end, tokens_end, token_table, nms, hw, ht, hb, hnms, hnmslen, ?_⟩,
    rfl, ?_⟩
  · intro k hk
    obtain ⟨addr, kind, rest, nm, h1, h2, h3, h4⟩ := hprops k hk
    refine ⟨addr, kind, rest, nm, h1, ?_, h3, h4⟩
    have hzk : (0 + k : Nat) = k := by omega
    rw [hzk] at h2
    exact h2
  · intro s hs
    obtain ⟨k, hk⟩ := List.get?_of_mem hs
    have hklen : k < tbl.length := by
      by_contra hc
      push_neg at hc
      rw [List.get?_eq_none.mpr hc] at hk
      exact Option.noConfusion hk
    rw [hlen] at hklen
    obtain ⟨addr, kind, rest, nm, h1, h2, h3, h4⟩ := hprops k hklen
    have hs2 : s = (addr, kind, rest) := by
      rw [hk] at h1
      exact Option.some.inj h1
    refine ⟨rfl, format_hex8_length s.1, format_hex8_chars s.1, ?_⟩
    have haddr : s.1 = addr := by rw [hs2]
    rw [haddr]
    exact format_hex8_foldl addr (read_dword_lt data _ addr hbytes h2)

/-- Witness for C1 on the synthetic image: extraction succeeds with exactly the
two records of `synthTable`, whose length is the declared count 2. -/
theorem claim_C1_witness :
    (∀ b ∈ synthImage, b < 256) ∧
    get_kernel_symbol_table synthImage DEFAULT_KERNEL_TEXT_START =
      ExtractResult.ok synthTable ∧
    read_dword synthImage (kallsyms_num_syms_off synthImage DEFAULT_KERNEL_TEXT_START) =
      some 2 ∧
    synthTable.length = 2 := by
  have hbytes : ∀ b ∈ synthImage, b < 256 := by
    have hall : synthImage.all (fun b => decide (b < 256)) = true := by rfl
    intro b hb
    exact of_decide_eq_true (List.all_eq_true.mp hall b hb)
  have hok : get_kernel_symbol_table synthImage DEFAULT_KERNEL_TEXT_START =
      ExtractResult.ok synthTable := synthImage_extract
  have hdecl : read_dword synthImage
      (kallsyms_num_syms_off synthImage DEFAULT_KERNEL_TEXT_START) = some 2 := by decide
  exact ⟨hbytes, hok, hdecl,
    (claim_C1 synthImage DEFAULT_KERNEL_TEXT_START synthTable 2 hbytes hok hdecl).1⟩
